import Mathlib

/-!
Verification of the image-converter program (convert.py): a shallow embedding
of its tree-snapshotting, pool, manifest/config rewriting and workspace-layout
logic, together with theorems settling the specification's claims.

Modelling conventions:
* File and blob contents are `String`s; sizes (`st_size`) are byte lengths of
  the content (for a symlink, of its target text).
* The external digest collaborator (`sha256sum` subprocess) is an abstract
  parameter `h : String → String` mapping content to its hex digest.
* The blob pool (a flat directory keyed by hex digest) is an association list
  `List (String × String)` from digest to content, in creation order.
* Python dicts are association lists in insertion order; `json.dump` with
  separators (",", ":") serializes keys in that order with no whitespace.
* `os.walk` classifies each directory entry via is_dir (which follows
  symlinks): a symlink whose target is a directory carries `targetIsDir = true`
  and is listed among the subdirectories, but the walk never descends into it.
  Within one directory the code records the subdirectory entries first, then
  the file entries, each group in enumeration order.
-/

namespace Convert

/-- Blob pool: association list from hex digest to blob content, mirroring the
flat pool directory whose filenames are the digests. -/
abbrev Pool := List (String × String)

/-- Per-regular-file pool step of UnpackedLayer.convert: compute the checksum
and copy the blob in only when no pool entry with that digest exists
(`if not os.path.exists(target): shutil.copyfile(path, target)`). -/
def poolAdd (h : String → String) (p : Pool) (content : String) : Pool :=
  let checksum := h content
  if (List.lookup checksum p).isSome then p else p ++ [(checksum, content)]

/-- An extracted directory tree. Entries of a directory are listed in the
order the operating system enumerates them during os.walk. A symlink records
whether its target is a directory (what os.path.isdir would report), which is
how os.walk classifies it. -/
inductive FS where
  | file (mode : Nat) (content : String)
  | symlink (mode : Nat) (target : String) (targetIsDir : Bool)
  | dir (mode : Nat) (entries : List (String × FS))

/-- Classification used by os.walk: an entry lands in `dirs` when is_dir holds
after following symlinks, i.e. for real directories and symlinks to
directories; everything else lands in `files`. -/
def isDirClass : FS → Bool
  | .dir _ _ => true
  | .symlink _ _ targetIsDir => targetIsDir
  | .file _ _ => false

/-- Tree-metadata node as built by UnpackedLayer.convert: a Python dict with
keys in insertion order (mode, then dirents / size+sha256 / size+link). -/
inductive Node where
  | file (mode size : Nat) (sha256 : String)
  | link (mode size : Nat) (target : String)
  | dir (mode : Nat) (dirents : List (String × Node))

mutual

/-- Tree document produced by the walk of UnpackedLayer.convert for one entry.
A regular file records mode, size and digest; a symlink not classified as a
directory records mode, size and the raw link target; a symlink classified as
a directory gets a directory entry with its own lstat mode whose dirents stay
empty because os.walk never descends into it; a directory collects its
subdirectory entries first, then its file entries. -/
def snapNode (h : String → String) : FS → Node
  | .file m c => .file m c.length (h c)
  | .symlink m _ true => .dir m []
  | .symlink m t false => .link m t.length t
  | .dir m es => .dir m (snapDirs h es ++ snapFiles h es)

/-- Dirents contributed by the `for d in dirs` loop, in enumeration order. -/
def snapDirs (h : String → String) : List (String × FS) → List (String × Node)
  | [] => []
  | (n, c) :: rest =>
    if isDirClass c then (n, snapNode h c) :: snapDirs h rest else snapDirs h rest

/-- Dirents contributed by the `for f in files` loop, in enumeration order. -/
def snapFiles (h : String → String) : List (String × FS) → List (String × Node)
  | [] => []
  | (n, c) :: rest =>
    if isDirClass c then snapFiles h rest else (n, snapNode h c) :: snapFiles h rest

end

mutual

/-- Pool effect of the walk: the parent directory's files are processed first
(`for f in files`), then the walk descends into each real subdirectory in
enumeration order. -/
def snapPool (h : String → String) : FS → Pool → Pool
  | .file _ c, p => poolAdd h p c
  | .symlink _ _ _, p => p
  | .dir _ es, p => snapPoolDirs h es (snapPoolFiles h es p)

/-- Pool effect of the `for f in files` loop of one directory: a regular file
runs the digest-and-copy step, a symlink (S_ISLNK) never touches the pool. -/
def snapPoolFiles (h : String → String) : List (String × FS) → Pool → Pool
  | [], p => p
  | (_, c) :: rest, p =>
    if isDirClass c then snapPoolFiles h rest p
    else snapPoolFiles h rest (snapPoolEntry h c p)

/-- Pool effect of descending into the dir-classified entries: os.walk only
recurses into real directories, never into symlinks to directories. -/
def snapPoolDirs (h : String → String) : List (String × FS) → Pool → Pool
  | [], p => p
  | (_, c) :: rest, p =>
    if isDirClass c then snapPoolDirs h rest (snapPoolDescend h c p)
    else snapPoolDirs h rest p

/-- Descent into one dir-classified entry: a real directory is walked (its
files first, then its subdirectories), a symlink to a directory is skipped
(followlinks is false). -/
def snapPoolDescend (h : String → String) : FS → Pool → Pool
  | .dir _ es, p => snapPoolDirs h es (snapPoolFiles h es p)
  | _, p => p

/-- Pool effect of one entry of the files loop. -/
def snapPoolEntry (h : String → String) : FS → Pool → Pool
  | .file _ c, p => poolAdd h p c
  | _, p => p

end

/-- Dirents of a node (empty for non-directories). -/
def dirents : Node → List (String × Node)
  | .dir _ ds => ds
  | _ => []

mutual

/-- Serialization of the tree document exactly as json.dump with separators
(",", ":") renders the dicts built by convert: keys in insertion order, no
whitespace. Names, digests and link targets in this development contain no
characters that json would escape. -/
def serializeNode : Node → String
  | .file m s d =>
    "\x7b\"mode\":" ++ toString m ++ ",\"size\":" ++ toString s ++
      ",\"sha256\":\"" ++ d ++ "\"\x7d"
  | .link m s t =>
    "\x7b\"mode\":" ++ toString m ++ ",\"size\":" ++ toString s ++
      ",\"link\":\"" ++ t ++ "\"\x7d"
  | .dir m ds =>
    "\x7b\"mode\":" ++ toString m ++ ",\"dirents\":\x7b" ++
      serializeDirents ds ++ "\x7d\x7d"

/-- Serialization of a dict body: comma-separated key/value pairs in
insertion order. -/
def serializeDirents : List (String × Node) → String
  | [] => ""
  | [(n, c)] => "\"" ++ n ++ "\":" ++ serializeNode c
  | (n, c) :: rest =>
    "\"" ++ n ++ "\":" ++ serializeNode c ++ "," ++ serializeDirents rest

end

/-- Insertion step of an insertion sort of directory entries by name. -/
def insertByName {α : Type} (p : String × α) :
    List (String × α) → List (String × α)
  | [] => [p]
  | q :: rest => if p.1 ≤ q.1 then p :: q :: rest else q :: insertByName p rest

/-- Insertion sort of directory entries by name, used to compare trees and
documents up to the enumeration order of directory entries. -/
def sortByName {α : Type} : List (String × α) → List (String × α)
  | [] => []
  | p :: rest => insertByName p (sortByName rest)

mutual

/-- Canonical form of a source tree: every directory's entries sorted by name.
Two trees are byte-identical on disk (same shape, modes, contents and link
targets, enumeration order aside) exactly when their canonical forms agree. -/
def canonFS : FS → FS
  | .file m c => .file m c
  | .symlink m t b => .symlink m t b
  | .dir m es => .dir m (sortByName (canonEntries es))

/-- Canonical form of each entry of a directory. -/
def canonEntries : List (String × FS) → List (String × FS)
  | [] => []
  | (n, c) :: rest => (n, canonFS c) :: canonEntries rest

end

mutual

/-- Canonical form of a tree document: every dirents dict sorted by key. -/
def canonNode : Node → Node
  | .file m s d => .file m s d
  | .link m s t => .link m s t
  | .dir m ds => .dir m (sortByName (canonDirents ds))

/-- Canonical form of each entry of a dirents dict. -/
def canonDirents : List (String × Node) → List (String × Node)
  | [] => []
  | (n, c) :: rest => (n, canonNode c) :: canonDirents rest

end

mutual

/-- Well-formedness of a source tree as the filesystem guarantees it: within
every directory the entry names are distinct. -/
def wfFS : FS → Bool
  | .file _ _ => true
  | .symlink _ _ _ => true
  | .dir _ es => decide ((es.map Prod.fst).Nodup) && wfEntries es

/-- Well-formedness of every entry of a directory. -/
def wfEntries : List (String × FS) → Bool
  | [] => true
  | (_, c) :: rest => wfFS c && wfEntries rest

end

/-- JSON documents as Python's json module holds them after json.load: object
fields in insertion order. -/
inductive Json where
  | null
  | bool (b : Bool)
  | num (n : Int)
  | str (s : String)
  | arr (elems : List Json)
  | obj (fields : List (String × Json))

mutual

/-- Serialization exactly as json.dump / json.dumps with jsonSep = (",", ":")
renders a document: keys in dict insertion order, no whitespace, no trailing
newline. Strings in this development contain no characters json escapes. -/
def jsonDump : Json → String
  | .null => "null"
  | .bool true => "true"
  | .bool false => "false"
  | .num n => toString n
  | .str s => "\"" ++ s ++ "\""
  | .arr xs => "[" ++ jsonDumpElems xs ++ "]"
  | .obj fs => "\x7b" ++ jsonDumpFields fs ++ "\x7d"

/-- Comma-separated serialization of array elements. -/
def jsonDumpElems : List Json → String
  | [] => ""
  | [x] => jsonDump x
  | x :: rest => jsonDump x ++ "," ++ jsonDumpElems rest

/-- Comma-separated serialization of object fields in insertion order. -/
def jsonDumpFields : List (String × Json) → String
  | [] => ""
  | [(k, v)] => "\"" ++ k ++ "\":" ++ jsonDump v
  | (k, v) :: rest =>
    "\"" ++ k ++ "\":" ++ jsonDump v ++ "," ++ jsonDumpFields rest

end

/-- Python dict assignment d[k] = v: overwrite in place when the key exists,
append at the end otherwise. -/
def dictSet {α : Type} (m : List (String × α)) (k : String) (v : α) :
    List (String × α) :=
  if (List.lookup k m).isSome then
    m.map fun p => if p.1 = k then (k, v) else p
  else m ++ [(k, v)]

/-- Python dict deletion del d[k] (keys are unique in a dict, so removing
every pair with the key is the same operation). -/
def dictDel {α : Type} (m : List (String × α)) (k : String) :
    List (String × α) :=
  m.filter fun p => p.1 != k

/-- Errors the interpreter raises in the modelled paths of convert.py. -/
inductive PyError where
  | indexError
  | keyError (k : String)
  | valueError
  | fileNotFound (p : String)
deriving DecidableEq

/-- Repository index: image name to a dict from version to identifier. -/
abbrev Repos := List (String × List (String × String))

/-- One entry of the manifest array. -/
structure ManifestEntry where
  Config : String
  RepoTags : List String
  Layers : List String

/-- Splitting of a character list at every occurrence of a separator, the
semantics of Python str.split(sep): n separators yield n+1 pieces. -/
def splitOnChar (sep : Char) : List Char → List (List Char)
  | [] => [[]]
  | c :: rest =>
    let r := splitOnChar sep rest
    if c = sep then [] :: r
    else
      match r with
      | piece :: t => (c :: piece) :: t
      | [] => [[c]]

/-- Tag splitting as the statement name, ver = tag.split(":") performs it:
str.split at every colon followed by a two-tuple unpacking, which raises a
ValueError unless the split produced exactly two pieces. -/
def splitTag (tag : String) : Except PyError (String × String) :=
  match splitOnChar ':' tag.data with
  | [n, v] => .ok (⟨n⟩, ⟨v⟩)
  | _ => .error .valueError

/-- Loop body of the RepoTags rewrite in Image._writeConfigs: split the tag,
store the index value under version-lazy, delete the version key, and emit
the rewritten tag name:version-lazy. -/
def rewriteTag (repos : Repos) (tag : String) :
    Except PyError (Repos × String) :=
  match splitTag tag with
  | .error e => .error e
  | .ok (name, ver) =>
    match List.lookup name repos with
    | none => .error (.keyError name)
    | some inner =>
      match List.lookup ver inner with
      | none => .error (.keyError ver)
      | some value =>
        let newver := ver ++ "-lazy"
        let inner2 := dictDel (dictSet inner newver value) ver
        .ok (dictSet repos name inner2, name ++ ":" ++ newver)

/-- Whole RepoTags loop of Image._writeConfigs, in original tag order. -/
def rewriteTags (repos : Repos) : List String → Except PyError (Repos × List String)
  | [] => .ok (repos, [])
  | t :: rest =>
    match rewriteTag repos t with
    | .error e => .error e
    | .ok (repos2, t2) =>
      match rewriteTags repos2 rest with
      | .error e => .error e
      | .ok (repos3, ts) => .ok (repos3, t2 :: ts)

/-- Assignment config["rootfs"]["diff_ids"] = ds of Image._assembleLayers:
an in-place update of the rootfs dict (the code raises a KeyError unless the
config is an object with a rootfs object; such a document is left
unchanged here, the claims only concern well-formed configs). -/
def setDiffIds (config : Json) (ds : List String) : Json :=
  match config with
  | .obj fields =>
    match List.lookup "rootfs" fields with
    | some (.obj rf) =>
      .obj (dictSet fields "rootfs"
        (.obj (dictSet rf "diff_ids" (.arr (ds.map .str)))))
    | _ => config
  | _ => config

/-- Read access config["rootfs"]["diff_ids"]. -/
def getDiffIds (config : Json) : Option (List Json) :=
  match config with
  | .obj fields =>
    match List.lookup "rootfs" fields with
    | some (.obj rf) =>
      match List.lookup "diff_ids" rf with
      | some (.arr ds) => some ds
      | _ => none
    | _ => none
  | _ => none

/-- Conversion of the repository index back to a json document for writing. -/
def reposToJson (repos : Repos) : Json :=
  .obj (repos.map fun p => (p.1, .obj (p.2.map fun q => (q.1, .str q.2))))

/-- Conversion of the manifest array back to a json document for writing. -/
def manifestToJson (ms : List ManifestEntry) : Json :=
  .arr (ms.map fun e => .obj [("Config", .str e.Config),
    ("RepoTags", .arr (e.RepoTags.map .str)),
    ("Layers", .arr (e.Layers.map .str))])

/-- Outcome of Image._writeConfigs: the name and bytes of the config file,
the rewritten manifest entry and repository index, and the bytes of the
repositories and manifest.json files (these two get a trailing newline, the
config file does not). -/
structure WriteResult where
  configName : String
  configOut : String
  manifestEntry : ManifestEntry
  reposOut : Repos
  repositoriesOut : String
  manifestOut : String

/-- Image._writeConfigs: hash the canonical serialization of the config,
write the config under hash.json with exactly those bytes, point the manifest
entry at it, rewrite the tags, and write repositories and manifest.json with
a trailing newline each. -/
def writeConfigs (h : String → String) (config : Json) (entry : ManifestEntry)
    (repos : Repos) : Except PyError WriteResult :=
  let configName := h (jsonDump config) ++ ".json"
  match rewriteTags repos entry.RepoTags with
  | .error e => .error e
  | .ok (repos2, tags) =>
    let entry2 : ManifestEntry :=
      { Config := configName, RepoTags := tags, Layers := entry.Layers }
    .ok { configName := configName,
          configOut := jsonDump config,
          manifestEntry := entry2,
          reposOut := repos2,
          repositoriesOut := jsonDump (reposToJson repos2) ++ "\n",
          manifestOut := jsonDump (manifestToJson [entry2]) ++ "\n" }

/-- Joining of path pieces with the slash separator. -/
def joinSlash : List (List Char) → List Char
  | [] => []
  | [piece] => piece
  | piece :: rest => piece ++ '/' :: joinSlash rest

/-- Splitting of a path into directory part and final component, the
semantics of os.path.split for plain slash-separated paths. -/
def pathSplit (p : String) : String × String :=
  let parts := splitOnChar '/' p.data
  (⟨joinSlash parts.dropLast⟩, ⟨parts.getLastD []⟩)

/-- Layer as Layer.__init__ builds it from a manifest path: the archive path
and the identifier, which is the name of the immediate containing
directory. -/
structure LayerT where
  src : String
  id : String

/-- Construction Layer(path) of convert.py. -/
def layerOfPath (path : String) : LayerT :=
  ⟨path, (pathSplit (pathSplit path).1).2⟩

/-- Image._loadManifest: take manifest[0] (an IndexError on an empty array —
no check rejects a manifest with more than one entry), open the config file
it references, and build one Layer per path of its Layers, in order. -/
def loadManifest (manifest : List ManifestEntry) (repositories : Repos)
    (configFiles : String → Option Json) :
    Except PyError (ManifestEntry × Repos × Json × List LayerT) :=
  match manifest with
  | [] => .error .indexError
  | entry :: _ =>
    match configFiles entry.Config with
    | none => .error (.fileNotFound entry.Config)
    | some config =>
      .ok (entry, repositories, config, entry.Layers.map layerOfPath)

/-- An unpacked layer: the extracted tree and the layer identifier. -/
structure UnpackedLayerT where
  tree : FS
  id : String

/-- Image._unpackLayers: every layer is unpacked in manifest order; the
external tar extraction is the parameter ext from archive path to tree. -/
def unpackLayers (ext : String → FS) (layers : List LayerT) :
    List UnpackedLayerT :=
  layers.map fun l => ⟨ext l.src, l.id⟩

/-- Loop of Image._assembleLayers: for each unpacked layer in order, convert
it (pool effect), repack it (the external tar creation is the parameter
pack from tree to archive bytes), and append the sha256-prefixed digest of
the repacked archive to the diff-id list. -/
def assembleLayers (h : String → String) (pack : FS → String) :
    List UnpackedLayerT → Pool → List String × Pool
  | [], p => ([], p)
  | l :: rest, p =>
    let r := assembleLayers h pack rest (snapPool h l.tree p)
    (("sha256:" ++ h (pack l.tree)) :: r.1, r.2)

/-- Python str.removesuffix(".tar"): strip the suffix when present. -/
def stripTarSuffix (path : String) : String :=
  if path.data.drop (path.data.length - 4) = ".tar".data then
    ⟨path.data.take (path.data.length - 4)⟩
  else path

/-- Workspace name of Image.__init__: the input path minus its .tar suffix. -/
def imageName (path : String) : String := stripTarSuffix path

/-- Source workspace directory (extracted source archive). -/
def imageSrcDir (path : String) : String := imageName path ++ "-orig"

/-- Destination workspace directory (repacked layers and rewritten docs). -/
def imageDstDir (path : String) : String := imageName path ++ "-lazy"

/-- Temporary workspace directory (unpacked layers and metadata). -/
def imageTmpDir (path : String) : String := imageName path ++ "-temp"

/-- Pool directory (content blobs keyed by digest). -/
def imagePoolDir (path : String) : String := imageName path ++ "-pool"

/-- Final output archive path. -/
def imageDstTar (path : String) : String := imageName path ++ "-lazy.tar"

end Convert

namespace Convert

/-- Helper: induction principle for the nested tree type, giving the inductive
hypothesis for every entry of a directory. -/
theorem FS.inductionOn (P : FS → Prop)
    (hfile : ∀ m c, P (.file m c))
    (hsym : ∀ m t b, P (.symlink m t b))
    (hdir : ∀ m es, (∀ e ∈ es, P e.2) → P (.dir m es)) :
    ∀ fs, P fs := by
  have key : ∀ (N : Nat) (fs : FS), sizeOf fs ≤ N → P fs := by
    intro N
    induction N with
    | zero =>
      intro fs hle
      cases fs <;> simp at hle
    | succ N ih =>
      intro fs hle
      cases fs with
      | file m c => exact hfile m c
      | symlink m t b => exact hsym m t b
      | dir m es =>
        refine hdir m es fun e he => ih e.2 ?_
        have h1 : sizeOf e < sizeOf es := List.sizeOf_lt_of_mem he
        have h2 : sizeOf e.2 < sizeOf e := by
          obtain ⟨n, c⟩ := e
          simp
        have h3 : sizeOf es < sizeOf (FS.dir m es) := by
          simp
        omega
  exact fun fs => key (sizeOf fs) fs (Nat.le_refl _)

/-- Helper: a key absent from an association list has lookup none. -/
theorem lookup_eq_none_of_keys_ne {α : Type} {k : String}
    {l : List (String × α)} (hk : ∀ q ∈ l, q.1 ≠ k) : List.lookup k l = none :=
  List.lookup_eq_none_iff.2 fun p hp => bne_iff_ne.2 fun e => hk p hp e.symm

/-- Helper: lookup none means the key is absent from the association list. -/
theorem not_mem_keys_of_lookup_eq_none {α : Type} {k : String}
    {l : List (String × α)} (hl : List.lookup k l = none) :
    k ∉ l.map Prod.fst := by
  intro hmem
  obtain ⟨p, hp, hfst⟩ := List.mem_map.1 hmem
  have hb := List.lookup_eq_none_iff.1 hl p hp
  rw [hfst] at hb
  simp at hb

/-- Helper: poolAdd preserves distinctness of the pool's digest keys. -/
theorem poolAdd_keys_nodup (h : String → String) (p : Pool) (c : String)
    (hp : (p.map Prod.fst).Nodup) : ((poolAdd h p c).map Prod.fst).Nodup := by
  unfold poolAdd
  cases hl : List.lookup (h c) p with
  | some v => simp [hl, hp]
  | none =>
    simp only [hl, Option.isSome_none, Bool.false_eq_true, if_false]
    rw [List.map_append]
    refine List.Nodup.append hp (by simp) ?_
    intro a ha hb
    simp at hb
    subst hb
    exact not_mem_keys_of_lookup_eq_none hl ha

/-- Helper: one files-loop entry preserves distinctness of the digest keys. -/
theorem snapPoolEntry_keys_nodup (h : String → String) (c : FS) (p : Pool)
    (hp : (p.map Prod.fst).Nodup) :
    ((snapPoolEntry h c p).map Prod.fst).Nodup := by
  cases c with
  | file m c' => exact poolAdd_keys_nodup h p c' hp
  | symlink m t b => exact hp
  | dir m es => exact hp

/-- Helper: the files loop preserves distinctness of the digest keys. -/
theorem snapPoolFiles_keys_nodup (h : String → String)
    (es : List (String × FS)) (p : Pool) (hp : (p.map Prod.fst).Nodup) :
    ((snapPoolFiles h es p).map Prod.fst).Nodup := by
  induction es generalizing p with
  | nil => rw [snapPoolFiles]; exact hp
  | cons e rest ih =>
    obtain ⟨n, c⟩ := e
    rw [snapPoolFiles]
    by_cases hc : isDirClass c
    · rw [if_pos hc]; exact ih p hp
    · rw [if_neg hc]; exact ih _ (snapPoolEntry_keys_nodup h c p hp)

/-- Helper: the descent loop preserves distinctness of the digest keys, given
that each entry's own walk does. -/
theorem snapPoolDirs_keys_nodup_of (h : String → String)
    (es : List (String × FS))
    (hes : ∀ e ∈ es, ∀ q : Pool, (q.map Prod.fst).Nodup →
      ((snapPoolDescend h e.2 q).map Prod.fst).Nodup)
    (p : Pool) (hp : (p.map Prod.fst).Nodup) :
    ((snapPoolDirs h es p).map Prod.fst).Nodup := by
  induction es generalizing p with
  | nil => rw [snapPoolDirs]; exact hp
  | cons e rest ih =>
    obtain ⟨n, c⟩ := e
    rw [snapPoolDirs]
    by_cases hc : isDirClass c
    · rw [if_pos hc]
      refine ih (fun e' he' => hes e' (List.mem_cons_of_mem _ he')) _ ?_
      exact hes (n, c) (List.mem_cons_self _ _) p hp
    · rw [if_neg hc]
      exact ih (fun e' he' => hes e' (List.mem_cons_of_mem _ he')) p hp

/-- Helper: the whole walk preserves distinctness of the pool's digest keys. -/
theorem snapPool_keys_nodup (h : String → String) (fs : FS) :
    ∀ p : Pool, (p.map Prod.fst).Nodup → ((snapPool h fs p).map Prod.fst).Nodup := by
  induction fs using FS.inductionOn with
  | hfile m c => intro p hp; exact poolAdd_keys_nodup h p c hp
  | hsym m t b => intro p hp; exact hp
  | hdir m es ihes =>
    intro p hp
    refine snapPoolDirs_keys_nodup_of h es ?_ _
      (snapPoolFiles_keys_nodup h es p hp)
    intro e he q hq
    have hchild := ihes e he
    cases hc : e.2 with
    | dir m' es' =>
      rw [hc] at hchild
      exact hchild q hq
    | file m' c' => exact hq
    | symlink m' t' b' => exact hq

/-- C2: pool insertion is idempotent — when the content's digest already has a
pool entry the snapshot step leaves the pool exactly as it was (no duplicate
blob, no alteration of the stored content) — and every walk of a layer keeps
the pool's digest keys distinct, so after any sequence of layer conversions
the pool holds at most one blob per digest. -/
theorem pool_insert_idempotent_and_unique (h : String → String) :
    (∀ (p : Pool) (c : String), (List.lookup (h c) p).isSome →
      poolAdd h p c = p) ∧
    (∀ (layers : List FS) (p : Pool), (p.map Prod.fst).Nodup →
      ((layers.foldl (fun q fs => snapPool h fs q) p).map Prod.fst).Nodup) := by
  constructor
  · intro p c hs
    unfold poolAdd
    simp [hs]
  · intro layers
    induction layers with
    | nil => intro p hp; exact hp
    | cons fs rest ih =>
      intro p hp
      exact ih (snapPool h fs p) (snapPool_keys_nodup h fs p hp)

/-- Witness for C2 at concrete inputs. -/
theorem pool_insert_idempotent_and_unique_witness :
    poolAdd (fun s => s) [("hello", "hello")] "hello" = [("hello", "hello")] ∧
    ((([FS.dir 493 [("a.txt", FS.file 420 "hello"),
        ("b.txt", FS.file 420 "hello")]]).foldl
      (fun q fs => snapPool (fun s => s) fs q) []).map Prod.fst).Nodup :=
  ⟨(pool_insert_idempotent_and_unique (fun s => s)).1 _ _ (by decide),
   (pool_insert_idempotent_and_unique (fun s => s)).2 _ [] (by simp)⟩

/-- C1: converting a layer whose root contains exactly the regular files a.txt
and b.txt with content hello and a symlink c to a.txt — whatever order the
operating system enumerates the three entries in — yields exactly one pool
blob, stored under the digest of hello, and a tree document whose root lists
a.txt and b.txt as regular-file nodes carrying that digest and c as a symlink
node with link a.txt. -/
theorem convert_hello_scenario (h : String → String) (m ma mb mc : Nat)
    (es : List (String × FS))
    (horder :
      es = [("a.txt", .file ma "hello"), ("b.txt", .file mb "hello"),
        ("c", .symlink mc "a.txt" false)] ∨
      es = [("a.txt", .file ma "hello"), ("c", .symlink mc "a.txt" false),
        ("b.txt", .file mb "hello")] ∨
      es = [("b.txt", .file mb "hello"), ("a.txt", .file ma "hello"),
        ("c", .symlink mc "a.txt" false)] ∨
      es = [("b.txt", .file mb "hello"), ("c", .symlink mc "a.txt" false),
        ("a.txt", .file ma "hello")] ∨
      es = [("c", .symlink mc "a.txt" false), ("a.txt", .file ma "hello"),
        ("b.txt", .file mb "hello")] ∨
      es = [("c", .symlink mc "a.txt" false), ("b.txt", .file mb "hello"),
        ("a.txt", .file ma "hello")]) :
    snapPool h (.dir m es) [] = [(h "hello", "hello")] ∧
    List.lookup "a.txt" (dirents (snapNode h (.dir m es))) =
      some (.file ma 5 (h "hello")) ∧
    List.lookup "b.txt" (dirents (snapNode h (.dir m es))) =
      some (.file mb 5 (h "hello")) ∧
    List.lookup "c" (dirents (snapNode h (.dir m es))) =
      some (.link mc 5 "a.txt") := by
  rcases horder with rfl | rfl | rfl | rfl | rfl | rfl <;>
    refine ⟨?_, ?_, ?_, ?_⟩ <;>
    simp [snapPool, snapPoolFiles, snapPoolDirs, snapPoolEntry, snapNode,
      snapDirs, snapFiles, isDirClass, poolAdd, dirents, List.lookup] <;>
    decide

/-- Witness for C1 at a concrete digest function and concrete modes. -/
theorem convert_hello_scenario_witness :
    snapPool (fun s => s) (.dir 493 [("a.txt", .file 420 "hello"),
      ("b.txt", .file 420 "hello"), ("c", .symlink 511 "a.txt" false)]) [] =
      [("hello", "hello")] ∧
    List.lookup "a.txt" (dirents (snapNode (fun s => s)
      (.dir 493 [("a.txt", .file 420 "hello"), ("b.txt", .file 420 "hello"),
        ("c", .symlink 511 "a.txt" false)]))) = some (.file 420 5 "hello") ∧
    List.lookup "b.txt" (dirents (snapNode (fun s => s)
      (.dir 493 [("a.txt", .file 420 "hello"), ("b.txt", .file 420 "hello"),
        ("c", .symlink 511 "a.txt" false)]))) = some (.file 420 5 "hello") ∧
    List.lookup "c" (dirents (snapNode (fun s => s)
      (.dir 493 [("a.txt", .file 420 "hello"), ("b.txt", .file 420 "hello"),
        ("c", .symlink 511 "a.txt" false)]))) = some (.link 511 5 "a.txt") :=
  convert_hello_scenario (fun s => s) 493 420 420 511 _ (Or.inl rfl)

/-- Helper: canonDirents maps canonNode over the values. -/
theorem canonDirents_eq_map (l : List (String × Node)) :
    canonDirents l = l.map fun e => (e.1, canonNode e.2) := by
  induction l with
  | nil => rfl
  | cons e rest ih => obtain ⟨n, c⟩ := e; rw [canonDirents, ih]; rfl

/-- Helper: canonEntries maps canonFS over the values. -/
theorem canonEntries_eq_map (l : List (String × FS)) :
    canonEntries l = l.map fun e => (e.1, canonFS e.2) := by
  induction l with
  | nil => rfl
  | cons e rest ih => obtain ⟨n, c⟩ := e; rw [canonEntries, ih]; rfl

/-- Helper: the dirs loop snapshots exactly the dir-classified entries, in
enumeration order. -/
theorem snapDirs_eq_filter_map (h : String → String) (l : List (String × FS)) :
    snapDirs h l = (l.filter fun e => isDirClass e.2).map
      fun e => (e.1, snapNode h e.2) := by
  induction l with
  | nil => rfl
  | cons e rest ih =>
    obtain ⟨n, c⟩ := e
    rw [snapDirs]
    by_cases hc : isDirClass c
    · rw [if_pos hc, ih, List.filter_cons]
      simp [hc]
    · rw [if_neg hc, ih, List.filter_cons]
      simp [hc]

/-- Helper: the files loop snapshots exactly the non-dir-classified entries,
in enumeration order. -/
theorem snapFiles_eq_filter_map (h : String → String) (l : List (String × FS)) :
    snapFiles h l = (l.filter fun e => !isDirClass e.2).map
      fun e => (e.1, snapNode h e.2) := by
  induction l with
  | nil => rfl
  | cons e rest ih =>
    obtain ⟨n, c⟩ := e
    rw [snapFiles]
    by_cases hc : isDirClass c
    · rw [if_pos hc, ih, List.filter_cons]
      simp [hc]
    · rw [if_neg hc, ih, List.filter_cons]
      simp [hc]

/-- Helper: insertion keeps the list a permutation of the cons. -/
theorem insertByName_perm {α : Type} (p : String × α)
    (l : List (String × α)) : (insertByName p l).Perm (p :: l) := by
  induction l with
  | nil => exact List.Perm.refl _
  | cons q rest ih =>
    rw [insertByName]
    by_cases hle : p.1 ≤ q.1
    · rw [if_pos hle]
    · rw [if_neg hle]
      exact (ih.cons q).trans (List.Perm.swap p q rest)

/-- Helper: sorting permutes the entries. -/
theorem sortByName_perm {α : Type} (l : List (String × α)) :
    (sortByName l).Perm l := by
  induction l with
  | nil => exact List.Perm.refl _
  | cons p rest ih =>
    rw [sortByName]
    exact (insertByName_perm p (sortByName rest)).trans (ih.cons p)

/-- Helper: insertion preserves sortedness by name. -/
theorem insertByName_sorted {α : Type} (p : String × α)
    (l : List (String × α)) (hs : l.Pairwise fun a b => a.1 ≤ b.1) :
    (insertByName p l).Pairwise fun a b => a.1 ≤ b.1 := by
  induction l with
  | nil => simp [insertByName]
  | cons q rest ih =>
    rw [List.pairwise_cons] at hs
    rw [insertByName]
    by_cases hle : p.1 ≤ q.1
    · rw [if_pos hle]
      refine List.pairwise_cons.2 ⟨?_, List.pairwise_cons.2 hs⟩
      intro x hx
      rcases List.mem_cons.1 hx with rfl | hx
      · exact hle
      · exact le_trans hle (hs.1 x hx)
    · rw [if_neg hle]
      refine List.pairwise_cons.2 ⟨?_, ih hs.2⟩
      intro x hx
      rcases List.mem_cons.1 ((insertByName_perm p rest).mem_iff.1 hx) with rfl | hx
      · exact le_of_not_le hle
      · exact hs.1 x hx

/-- Helper: sorting sorts by name. -/
theorem sortByName_sorted {α : Type} (l : List (String × α)) :
    (sortByName l).Pairwise fun a b => a.1 ≤ b.1 := by
  induction l with
  | nil => simp [sortByName]
  | cons p rest ih => exact insertByName_sorted p _ ih

/-- Helper: on entry lists with distinct names, sorting by name identifies
permutations: any two orderings of the same entries sort identically. -/
theorem sortByName_eq_of_perm {α : Type} {l₁ l₂ : List (String × α)}
    (hp : l₁.Perm l₂) (hnd : (l₁.map Prod.fst).Nodup) :
    sortByName l₁ = sortByName l₂ := by
  have p12 : (sortByName l₁).Perm (sortByName l₂) :=
    (sortByName_perm l₁).trans (hp.trans (sortByName_perm l₂).symm)
  have hnd1 : ((sortByName l₁).map Prod.fst).Nodup :=
    (((sortByName_perm l₁).map Prod.fst).nodup_iff).2 hnd
  have hnd2 : ((sortByName l₂).map Prod.fst).Nodup :=
    ((p12.map Prod.fst).nodup_iff).1 hnd1
  have hlt1 : (sortByName l₁).Pairwise fun a b => a.1 < b.1 := by
    have hne : (sortByName l₁).Pairwise fun a b => a.1 ≠ b.1 :=
      (List.pairwise_map).1 hnd1
    exact ((sortByName_sorted l₁).and hne).imp fun hab => lt_of_le_of_ne hab.1 hab.2
  have hlt2 : (sortByName l₂).Pairwise fun a b => a.1 < b.1 := by
    have hne : (sortByName l₂).Pairwise fun a b => a.1 ≠ b.1 :=
      (List.pairwise_map).1 hnd2
    exact ((sortByName_sorted l₂).and hne).imp fun hab => lt_of_le_of_ne hab.1 hab.2
  haveI : IsAntisymm (String × α) (fun a b => a.1 < b.1) :=
    ⟨fun a b h1 h2 => absurd h2 (lt_asymm h1)⟩
  exact List.eq_of_perm_of_sorted p12 hlt1 hlt2

/-- Helper: the canonicalized dirents produced for a directory's entry list
are a permutation of the per-entry canonical snapshots. -/
theorem canonDirents_snap_perm (h : String → String) (l : List (String × FS)) :
    (canonDirents (snapDirs h l ++ snapFiles h l)).Perm
      (l.map fun e => (e.1, canonNode (snapNode h e.2))) := by
  rw [canonDirents_eq_map, snapDirs_eq_filter_map, snapFiles_eq_filter_map,
    List.map_append, List.map_map, List.map_map, ← List.map_append]
  exact (List.filter_append_perm _ l).map _

/-- Helper: names stay distinct through snapshotting and canonicalization. -/
theorem keys_canonDirents_snap (h : String → String) (l : List (String × FS))
    (hnd : (l.map Prod.fst).Nodup) :
    ((canonDirents (snapDirs h l ++ snapFiles h l)).map Prod.fst).Nodup := by
  have hp := (canonDirents_snap_perm h l).map Prod.fst
  rw [List.map_map] at hp
  exact hp.nodup_iff.2 hnd

/-- Helper: a well-formed directory has distinct entry names. -/
theorem wf_dir_keys {m : Nat} {es : List (String × FS)}
    (hwf : wfFS (.dir m es) = true) : (es.map Prod.fst).Nodup := by
  rw [wfFS, Bool.and_eq_true, decide_eq_true_eq] at hwf
  exact hwf.1

/-- Helper: every entry of a well-formed directory is well-formed. -/
theorem wf_dir_child {m : Nat} {es : List (String × FS)}
    (hwf : wfFS (.dir m es) = true) : ∀ e ∈ es, wfFS e.2 = true := by
  rw [wfFS, Bool.and_eq_true] at hwf
  have h2 := hwf.2
  clear hwf
  induction es with
  | nil => intro e he; simp at he
  | cons q rest ih =>
    obtain ⟨n, c⟩ := q
    rw [wfEntries, Bool.and_eq_true] at h2
    intro e he
    rcases List.mem_cons.1 he with rfl | he
    · exact h2.1
    · exact ih h2.2 e he

/-- Helper: the canonical tree document of a well-formed tree depends only on
the canonical form of the tree — enumeration order never shows through. -/
theorem canonNode_snap_canonFS (h : String → String) :
    ∀ fs : FS, wfFS fs = true →
      canonNode (snapNode h fs) = canonNode (snapNode h (canonFS fs)) := by
  intro fs
  induction fs using FS.inductionOn with
  | hfile m c => intro _; rfl
  | hsym m t b => intro _; cases b <;> rfl
  | hdir m es ihes =>
    intro hwf
    have hnd := wf_dir_keys hwf
    have hch := wf_dir_child hwf
    show Node.dir m (sortByName (canonDirents (snapDirs h es ++ snapFiles h es))) =
      Node.dir m (sortByName (canonDirents
        (snapDirs h (sortByName (canonEntries es)) ++
          snapFiles h (sortByName (canonEntries es)))))
    congr 1
    refine sortByName_eq_of_perm ?_ (keys_canonDirents_snap h es hnd)
    refine (canonDirents_snap_perm h es).trans (List.Perm.symm ?_)
    refine (canonDirents_snap_perm h (sortByName (canonEntries es))).trans ?_
    refine ((sortByName_perm (canonEntries es)).map _).trans ?_
    rw [canonEntries_eq_map, List.map_map]
    have hmap : es.map ((fun e : String × FS => (e.1, canonNode (snapNode h e.2))) ∘
        fun e : String × FS => (e.1, canonFS e.2)) =
        es.map fun e : String × FS => (e.1, canonNode (snapNode h e.2)) :=
      List.map_congr_left fun e he => by
        show (e.1, canonNode (snapNode h (canonFS e.2))) = (e.1, canonNode (snapNode h e.2))
        rw [← ihes e he (hch e he)]
    rw [hmap]

/-- C8 is false as stated: two byte-identical trees (identical canonical
forms: same shape, modes, sizes, contents and link targets) whose entries are
enumerated in different orders serialize to different metadata documents,
because json.dump keeps the dict insertion order of the walk. -/
theorem convert_metadata_order_counterexample :
    canonFS (.dir 493 [("a", .file 420 "x"), ("b", .file 420 "y")]) =
      canonFS (.dir 493 [("b", .file 420 "y"), ("a", .file 420 "x")]) ∧
    serializeNode (snapNode (fun s => s)
        (.dir 493 [("a", .file 420 "x"), ("b", .file 420 "y")])) ≠
      serializeNode (snapNode (fun s => s)
        (.dir 493 [("b", .file 420 "y"), ("a", .file 420 "x")])) := by
  refine ⟨?_, by decide⟩
  have hab : (['a'] : List Char) ≤ ['b'] := by decide
  have hba : ¬(['b'] : List Char) ≤ ['a'] := by decide
  simp [canonFS, canonEntries, sortByName, insertByName, hab, hba]

/-- C8 (amended): for two runs of convert over byte-identical directory trees
(same shape, modes, sizes, file contents and link targets), the tree-metadata
documents agree up to the per-directory ordering of dirents keys — their
canonical forms, and hence the canonical serializations, are byte-identical —
but the documents as written are only byte-identical when both traversals
enumerate directory entries in the same order. -/
theorem convert_metadata_deterministic_up_to_order (h : String → String)
    (fs1 fs2 : FS) (h1 : wfFS fs1 = true) (h2 : wfFS fs2 = true)
    (hc : canonFS fs1 = canonFS fs2) :
    canonNode (snapNode h fs1) = canonNode (snapNode h fs2) ∧
    serializeNode (canonNode (snapNode h fs1)) =
      serializeNode (canonNode (snapNode h fs2)) := by
  have e1 := canonNode_snap_canonFS h fs1 h1
  have e2 := canonNode_snap_canonFS h fs2 h2
  rw [hc] at e1
  have heq : canonNode (snapNode h fs1) = canonNode (snapNode h fs2) :=
    e1.trans e2.symm
  exact ⟨heq, congrArg _ heq⟩

/-- Witness for the amended C8 at the two concrete enumeration orders. -/
theorem convert_metadata_deterministic_up_to_order_witness :
    canonNode (snapNode (fun s => s)
        (.dir 493 [("a", .file 420 "x"), ("b", .file 420 "y")])) =
      canonNode (snapNode (fun s => s)
        (.dir 493 [("b", .file 420 "y"), ("a", .file 420 "x")])) ∧
    serializeNode (canonNode (snapNode (fun s => s)
        (.dir 493 [("a", .file 420 "x"), ("b", .file 420 "y")]))) =
      serializeNode (canonNode (snapNode (fun s => s)
        (.dir 493 [("b", .file 420 "y"), ("a", .file 420 "x")]))) :=
  convert_metadata_deterministic_up_to_order (fun s => s) _ _ (by decide) (by decide)
    (by
      have hab : (['a'] : List Char) ≤ ['b'] := by decide
      have hba : ¬(['b'] : List Char) ≤ ['a'] := by decide
      simp [canonFS, canonEntries, sortByName, insertByName, hab, hba])

/-- Helper: looking up a key in an appended association list continues in the
right part when the left part misses the key. -/
theorem lookup_append_of_none {α : Type} {k : String}
    {l₁ l₂ : List (String × α)} (hl : List.lookup k l₁ = none) :
    List.lookup k (l₁ ++ l₂) = List.lookup k l₂ := by
  induction l₁ with
  | nil => rfl
  | cons q rest ih =>
    obtain ⟨a, v⟩ := q
    cases hbeq : k == a with
    | true => simp [List.lookup, hbeq] at hl
    | false =>
      simp only [List.lookup, hbeq] at hl
      simp only [List.cons_append, List.lookup, hbeq]
      exact ih hl

/-- Helper: looking up a key found in the left part of an appended
association list ignores the right part. -/
theorem lookup_append_of_some {α : Type} {k : String}
    {l₁ l₂ : List (String × α)} {w : α} (hl : List.lookup k l₁ = some w) :
    List.lookup k (l₁ ++ l₂) = some w := by
  induction l₁ with
  | nil => simp [List.lookup] at hl
  | cons q rest ih =>
    obtain ⟨a, v⟩ := q
    cases hbeq : k == a with
    | true =>
      simp only [List.lookup, hbeq] at hl
      simp only [List.cons_append, List.lookup, hbeq]
      exact hl
    | false =>
      simp only [List.lookup, hbeq] at hl
      simp only [List.cons_append, List.lookup, hbeq]
      exact ih hl

/-- Helper: the in-place overwrite of a present key is seen by a read of that
key. -/
theorem lookup_map_replace_self {α : Type} (m : List (String × α))
    (k : String) (v : α) (hs : (List.lookup k m).isSome = true) :
    List.lookup k (m.map fun p => if p.1 = k then (k, v) else p) = some v := by
  induction m with
  | nil => simp [List.lookup] at hs
  | cons q rest ih =>
    obtain ⟨a, w⟩ := q
    by_cases hak : a = k
    · subst hak
      rw [List.map_cons]
      have hcond : ((a, w).1 = a) := rfl
      rw [if_pos hcond]
      simp [List.lookup]
    · have hbeq : (k == a) = false := beq_false_of_ne fun e => hak e.symm
      have hcond : ¬((a, w).1 = k) := hak
      rw [List.map_cons, if_neg hcond]
      simp only [List.lookup, hbeq] at hs ⊢
      exact ih hs

/-- Helper: the in-place overwrite of one key is invisible to reads of other
keys. -/
theorem lookup_map_replace_ne {α : Type} (m : List (String × α))
    {k k2 : String} (v : α) (hne : k2 ≠ k) :
    List.lookup k2 (m.map fun p => if p.1 = k then (k, v) else p) =
      List.lookup k2 m := by
  induction m with
  | nil => rfl
  | cons q rest ih =>
    obtain ⟨a, w⟩ := q
    by_cases hak : a = k
    · subst hak
      have hcond : ((a, w).1 = a) := rfl
      rw [List.map_cons, if_pos hcond]
      have hq2 : (k2 == a) = false := beq_false_of_ne hne
      simp only [List.lookup, hq2]
      exact ih
    · have hcond : ¬((a, w).1 = k) := hak
      rw [List.map_cons, if_neg hcond]
      simp only [List.lookup]
      cases hq2 : k2 == a with
      | true => rfl
      | false => exact ih

/-- Helper: a dict read after an assignment to the same key sees the new
value. -/
theorem lookup_dictSet_self {α : Type} (m : List (String × α)) (k : String)
    (v : α) : List.lookup k (dictSet m k v) = some v := by
  unfold dictSet
  cases hs : (List.lookup k m).isSome with
  | false =>
    simp only [hs, Bool.false_eq_true, if_false]
    have hnone : List.lookup k m = none := by
      cases hl : List.lookup k m with
      | none => rfl
      | some w => rw [hl] at hs; simp at hs
    rw [lookup_append_of_none hnone]
    simp [List.lookup]
  | true =>
    simp only [hs, if_true]
    exact lookup_map_replace_self m k v hs

/-- Helper: a dict read of a different key is unaffected by an assignment. -/
theorem lookup_dictSet_ne {α : Type} (m : List (String × α)) {k k2 : String}
    (v : α) (hne : k2 ≠ k) :
    List.lookup k2 (dictSet m k v) = List.lookup k2 m := by
  have hbeq : (k2 == k) = false := beq_false_of_ne hne
  unfold dictSet
  cases hs : (List.lookup k m).isSome with
  | false =>
    simp only [hs, Bool.false_eq_true, if_false]
    cases hl : List.lookup k2 m with
    | some w => exact lookup_append_of_some hl
    | none =>
      rw [lookup_append_of_none hl]
      simp [List.lookup, hbeq]
  | true =>
    simp only [hs, if_true]
    exact lookup_map_replace_ne m v hne

/-- Helper: the deleted key is gone from the dict. -/
theorem lookup_dictDel_self {α : Type} (m : List (String × α)) (k : String) :
    List.lookup k (dictDel m k) = none := by
  refine lookup_eq_none_of_keys_ne fun q hq => ?_
  have := (List.mem_filter.1 hq).2
  simpa using this

/-- Helper: deleting one key leaves reads of other keys unchanged. -/
theorem lookup_dictDel_ne {α : Type} (m : List (String × α)) {k k2 : String}
    (hne : k2 ≠ k) : List.lookup k2 (dictDel m k) = List.lookup k2 m := by
  induction m with
  | nil => rfl
  | cons q rest ih =>
    obtain ⟨a, v⟩ := q
    rw [dictDel, List.filter_cons]
    by_cases hak : a = k
    · subst hak
      have hq2 : (k2 == a) = false := beq_false_of_ne hne
      simp only [bne_self_eq_false, Bool.false_eq_true, if_false]
      rw [List.lookup, hq2]
      exact ih
    · have hkeep : (a != k) = true := bne_iff_ne.2 hak
      simp only [hkeep, if_true]
      rw [List.lookup, List.lookup]
      cases hq2 : k2 == a with
      | true => rfl
      | false => exact ih

/-- Helper: the split of a string never yields an empty piece list. -/
theorem splitOnChar_ne_nil (sep : Char) (cs : List Char) :
    splitOnChar sep cs ≠ [] := by
  cases cs with
  | nil => simp [splitOnChar]
  | cons c rest =>
    rw [splitOnChar]
    by_cases hc : c = sep
    · simp [hc]
    · simp only [if_neg hc]
      cases hr : splitOnChar sep rest with
      | nil => simp
      | cons piece t => simp

/-- Helper: a split with n separators yields n+1 pieces. -/
theorem splitOnChar_length (sep : Char) (cs : List Char) :
    (splitOnChar sep cs).length = cs.count sep + 1 := by
  induction cs with
  | nil => simp [splitOnChar]
  | cons c rest ih =>
    rw [splitOnChar]
    by_cases hc : c = sep
    · subst hc
      simp [List.count_cons, ih]
    · simp only [if_neg hc]
      cases hr : splitOnChar sep rest with
      | nil => exact absurd hr (splitOnChar_ne_nil sep rest)
      | cons piece t =>
        rw [hr] at ih
        simp only [List.length_cons] at ih ⊢
        have hcount : (c :: rest).count sep = rest.count sep := by
          simp [List.count_cons, hc, fun e : sep = c => hc e.symm]
        rw [hcount]
        exact ih

/-- C7 is false as stated: a tag with more than one colon is not split at the
first colon — the two-tuple unpacking of str.split raises a ValueError — so
the rewrite also fails on tags that do contain a colon. -/
theorem splitTag_two_colons_counterexample :
    splitTag "reg:app:1.0" = .error .valueError ∧
    splitTag "app:1.0" = .ok ("app", "1.0") ∧
    splitTag "app" = .error .valueError :=
  ⟨rfl, rfl, rfl⟩

/-- C7 (amended): the tag-splitting step of the rewrite succeeds, yielding the
parts around the separator, exactly when the tag contains exactly one colon;
a tag with no colon or with two or more colons fails (the taxonomy's
ConfigMismatch, concretely a ValueError from the two-tuple unpacking). -/
theorem splitTag_ok_iff_one_colon (tag : String) :
    (∃ n v, splitTag tag = .ok (n, v)) ↔ tag.data.count ':' = 1 := by
  have hlen := splitOnChar_length ':' tag.data
  constructor
  · rintro ⟨n, v, hok⟩
    rcases hsp : splitOnChar ':' tag.data with _ | ⟨a, _ | ⟨b, _ | ⟨c, t⟩⟩⟩
    · exact absurd hsp (splitOnChar_ne_nil ':' tag.data)
    · simp [splitTag, hsp] at hok
    · rw [hsp] at hlen
      simp only [List.length_cons, List.length_nil] at hlen
      omega
    · simp [splitTag, hsp] at hok
  · intro hc
    rw [hc] at hlen
    rcases hsp : splitOnChar ':' tag.data with _ | ⟨a, _ | ⟨b, _ | ⟨c, t⟩⟩⟩ <;>
      rw [hsp] at hlen <;> simp at hlen
    exact ⟨⟨a⟩, ⟨b⟩, by simp [splitTag, hsp]⟩

/-- C4: for a RepoTags entry name:version whose version exists in the index
under name, the rewrite stores the index value unchanged under version-lazy,
removes the version key, replaces the tag with name:version-lazy, and the tag
loop keeps the tag order. -/
theorem tag_rewrite_moves_version (repos : Repos) (tag name ver : String)
    (inner : List (String × String)) (value : String)
    (hsplit : splitTag tag = .ok (name, ver))
    (hname : List.lookup name repos = some inner)
    (hver : List.lookup ver inner = some value) :
    rewriteTag repos tag = .ok
      (dictSet repos name (dictDel (dictSet inner (ver ++ "-lazy") value) ver),
        name ++ ":" ++ (ver ++ "-lazy")) ∧
    List.lookup (ver ++ "-lazy")
      (dictDel (dictSet inner (ver ++ "-lazy") value) ver) = some value ∧
    List.lookup ver (dictDel (dictSet inner (ver ++ "-lazy") value) ver) =
      none ∧
    List.lookup name (dictSet repos name
        (dictDel (dictSet inner (ver ++ "-lazy") value) ver)) =
      some (dictDel (dictSet inner (ver ++ "-lazy") value) ver) ∧
    rewriteTags repos [tag] = .ok
      (dictSet repos name (dictDel (dictSet inner (ver ++ "-lazy") value) ver),
        [name ++ ":" ++ (ver ++ "-lazy")]) := by
  have hne : ver ++ "-lazy" ≠ ver := by
    intro e
    have hlen := congrArg String.length e
    have h5 : ("-lazy" : String).length = 5 := rfl
    rw [String.length_append, h5] at hlen
    omega
  have h1 : rewriteTag repos tag = .ok
      (dictSet repos name (dictDel (dictSet inner (ver ++ "-lazy") value) ver),
        name ++ ":" ++ (ver ++ "-lazy")) := by
    simp [rewriteTag, hsplit, hname, hver]
  refine ⟨h1, ?_, ?_, ?_, ?_⟩
  · rw [lookup_dictDel_ne _ hne, lookup_dictSet_self]
  · exact lookup_dictDel_self _ _
  · exact lookup_dictSet_self _ _ _
  · simp [rewriteTags, h1]

/-- Witness for C4 at the concrete example of the specification. -/
theorem tag_rewrite_moves_version_witness :
    rewriteTag [("app", [("1.0", "abc123")])] "app:1.0" =
      .ok ([("app", [("1.0-lazy", "abc123")])], "app:1.0-lazy") ∧
    List.lookup "1.0-lazy" [("1.0-lazy", "abc123")] = some "abc123" ∧
    List.lookup "1.0" [("1.0-lazy", "abc123")] = none ∧
    List.lookup "app" [("app", [("1.0-lazy", "abc123")])] =
      some [("1.0-lazy", "abc123")] ∧
    rewriteTags [("app", [("1.0", "abc123")])] ["app:1.0"] =
      .ok ([("app", [("1.0-lazy", "abc123")])], ["app:1.0-lazy"]) :=
  tag_rewrite_moves_version [("app", [("1.0", "abc123")])] "app:1.0"
    "app" "1.0" [("1.0", "abc123")] "abc123" rfl rfl rfl

/-- C5: the rewritten config document is written to a file hex.json where hex
is the digest of exactly the bytes written into that file — the canonical
serialization of the config, with no trailing newline. -/
theorem config_digest_self_consistent (h : String → String) (config : Json)
    (entry : ManifestEntry) (repos : Repos) (res : WriteResult)
    (hok : writeConfigs h config entry repos = .ok res) :
    res.configName = h res.configOut ++ ".json" ∧
    res.configOut = jsonDump config := by
  unfold writeConfigs at hok
  cases hr : rewriteTags repos entry.RepoTags with
  | error e => rw [hr] at hok; simp at hok
  | ok pr =>
    obtain ⟨repos2, tags⟩ := pr
    rw [hr] at hok
    simp only [Except.ok.injEq] at hok
    subst hok
    exact ⟨rfl, rfl⟩

/-- Witness for C5 with the identity digest function on a minimal config. -/
theorem config_digest_self_consistent_witness :
    ("null.json" : String) = (fun s : String => s) "null" ++ ".json" ∧
    ("null" : String) = jsonDump Json.null :=
  config_digest_self_consistent (fun s => s) Json.null ⟨"cfg", [], []⟩ []
    { configName := "null.json", configOut := "null",
      manifestEntry := ⟨"null.json", [], []⟩, reposOut := [],
      repositoriesOut := "\x7b\x7d\n",
      manifestOut :=
        "[\x7b\"Config\":\"null.json\",\"RepoTags\":[],\"Layers\":[]\x7d]\n" }
    rfl

/-- C6 is false as stated: a manifest array with two entries does not fail —
load silently uses the first entry. -/
theorem loadManifest_two_entries_counterexample :
    loadManifest [⟨"c1", ["a:1"], ["l1/layer.tar"]⟩, ⟨"c2", [], []⟩] []
        (fun p => if p = "c1" then some Json.null else none) =
      .ok (⟨"c1", ["a:1"], ["l1/layer.tar"]⟩, [], Json.null,
        [⟨"l1/layer.tar", "l1"⟩]) := rfl

/-- C6 (amended): loading fails (with an IndexError, the ManifestParseError
of the taxonomy) only when the manifest array is empty; for any nonempty
array — also one with more than one entry — it returns the first entry
together with the repository index, the config document that entry
references, and one Layer per path of that entry's Layers, in order. -/
theorem loadManifest_uses_first_entry (repos : Repos)
    (configFiles : String → Option Json) :
    loadManifest [] repos configFiles = .error .indexError ∧
    (∀ (entry : ManifestEntry) (rest : List ManifestEntry) (cfg : Json),
      configFiles entry.Config = some cfg →
      loadManifest (entry :: rest) repos configFiles =
        .ok (entry, repos, cfg, entry.Layers.map layerOfPath)) := by
  refine ⟨rfl, ?_⟩
  intro entry rest cfg hcfg
  simp [loadManifest, hcfg]

/-- Witness for the amended C6 at a concrete two-entry manifest. -/
theorem loadManifest_uses_first_entry_witness :
    loadManifest [] [] (fun p => if p = "c1" then some Json.null else none) =
      .error .indexError ∧
    loadManifest [⟨"c1", [], ["l2/layer.tar"]⟩, ⟨"c9", [], []⟩] []
        (fun p => if p = "c1" then some Json.null else none) =
      .ok (⟨"c1", [], ["l2/layer.tar"]⟩, [], Json.null,
        [⟨"l2/layer.tar", "l2"⟩]) := by
  have h := loadManifest_uses_first_entry []
    (fun p => if p = "c1" then some Json.null else none)
  exact ⟨h.1, h.2 ⟨"c1", [], ["l2/layer.tar"]⟩ [⟨"c9", [], []⟩] Json.null rfl⟩

/-- Helper: the diff-id list that the assemble loop accumulates is the
per-layer digests in layer order. -/
theorem assembleLayers_fst (h : String → String) (pack : FS → String) :
    ∀ (uls : List UnpackedLayerT) (p : Pool),
      (assembleLayers h pack uls p).1 =
        uls.map fun l => "sha256:" ++ h (pack l.tree) := by
  intro uls
  induction uls with
  | nil => intro p; rfl
  | cons l rest ih =>
    intro p
    simp only [assembleLayers, List.map_cons]
    rw [ih]

/-- C3: after conversion the config's rootfs.diff_ids holds exactly one entry
per manifest layer, in manifest order, the i-th being the sha256-prefixed
digest of the repacked i-th layer archive. -/
theorem diff_ids_match_layers (h : String → String) (pack : FS → String)
    (ext : String → FS) (entry : ManifestEntry) (p : Pool) (config : Json)
    (fields rf : List (String × Json)) (hobj : config = .obj fields)
    (hrf : List.lookup "rootfs" fields = some (.obj rf)) :
    (assembleLayers h pack (unpackLayers ext (entry.Layers.map layerOfPath))
        p).1 =
      entry.Layers.map (fun pth => "sha256:" ++ h (pack (ext pth))) ∧
    (assembleLayers h pack (unpackLayers ext (entry.Layers.map layerOfPath))
        p).1.length = entry.Layers.length ∧
    getDiffIds (setDiffIds config
        (assembleLayers h pack (unpackLayers ext
          (entry.Layers.map layerOfPath)) p).1) =
      some ((entry.Layers.map fun pth => "sha256:" ++ h (pack (ext pth))).map
        Json.str) := by
  have hmain : (assembleLayers h pack
      (unpackLayers ext (entry.Layers.map layerOfPath)) p).1 =
      entry.Layers.map fun pth => "sha256:" ++ h (pack (ext pth)) := by
    rw [assembleLayers_fst, unpackLayers, List.map_map, List.map_map]
    rfl
  refine ⟨hmain, by rw [hmain, List.length_map], ?_⟩
  rw [hmain]
  subst hobj
  simp only [setDiffIds, hrf, getDiffIds, lookup_dictSet_self]

/-- Witness for C3 at a concrete two-layer manifest entry. -/
theorem diff_ids_match_layers_witness :
    (assembleLayers (fun s => s) (fun _ => "T") (unpackLayers
        (fun _ => FS.dir 0 [])
        ((["l1/layer.tar", "l2/layer.tar"] : List String).map layerOfPath))
        []).1 = ["sha256:T", "sha256:T"] ∧
    (assembleLayers (fun s => s) (fun _ => "T") (unpackLayers
        (fun _ => FS.dir 0 [])
        ((["l1/layer.tar", "l2/layer.tar"] : List String).map layerOfPath))
        []).1.length = 2 ∧
    getDiffIds (setDiffIds (.obj [("rootfs", .obj [("diff_ids", .arr [])])])
        (assembleLayers (fun s => s) (fun _ => "T") (unpackLayers
          (fun _ => FS.dir 0 [])
          ((["l1/layer.tar", "l2/layer.tar"] : List String).map layerOfPath))
          []).1) =
      some [Json.str "sha256:T", Json.str "sha256:T"] :=
  diff_ids_match_layers (fun s => s) (fun _ => "T") (fun _ => FS.dir 0 [])
    ⟨"c", [], ["l1/layer.tar", "l2/layer.tar"]⟩ []
    (.obj [("rootfs", .obj [("diff_ids", .arr [])])])
    [("rootfs", .obj [("diff_ids", .arr [])])] [("diff_ids", .arr [])]
    rfl rfl

/-- Helper: removesuffix strips a .tar suffix that is present. -/
theorem stripTarSuffix_append (name : String) :
    stripTarSuffix (name ++ ".tar") = name := by
  obtain ⟨cs⟩ := name
  show (if (cs ++ ".tar".data).drop ((cs ++ ".tar".data).length - 4) =
        ".tar".data then
      (⟨(cs ++ ".tar".data).take ((cs ++ ".tar".data).length - 4)⟩ : String)
    else ⟨cs ++ ".tar".data⟩) = ⟨cs⟩
  have hlen : (cs ++ ".tar".data).length = cs.length + 4 := by simp
  rw [hlen]
  have harith : cs.length + 4 - 4 = cs.length := by omega
  rw [harith, List.drop_left, if_pos rfl, List.take_left]

/-- C9 is false as stated: the staging areas are sibling directories named
with suffixes, not subdirectories of one parent directory named after the
input. -/
theorem workspace_not_nested_counterexample :
    imageSrcDir "foo.tar" = "foo-orig" ∧ imageSrcDir "foo.tar" ≠ "foo/orig" ∧
    imageTmpDir "foo.tar" = "foo-temp" ∧ imageTmpDir "foo.tar" ≠ "foo/temp" ∧
    imageDstDir "foo.tar" = "foo-lazy" ∧ imageDstDir "foo.tar" ≠ "foo/lazy" :=
  ⟨rfl, by decide, rfl, by decide, rfl, by decide⟩

/-- C9 (amended): for an input path name.tar the conversion uses the sibling
staging directories name-orig (extracted source), name-temp (unpacked layers
and metadata), name-lazy (destination root), plus the name-pool blob
directory and the name-lazy.tar output archive. -/
theorem workspace_sibling_directories (name : String) :
    imageSrcDir (name ++ ".tar") = name ++ "-orig" ∧
    imageTmpDir (name ++ ".tar") = name ++ "-temp" ∧
    imageDstDir (name ++ ".tar") = name ++ "-lazy" ∧
    imagePoolDir (name ++ ".tar") = name ++ "-pool" ∧
    imageDstTar (name ++ ".tar") = name ++ "-lazy.tar" := by
  have hs := stripTarSuffix_append name
  exact ⟨by rw [imageSrcDir, imageName, hs], by rw [imageTmpDir, imageName, hs],
    by rw [imageDstDir, imageName, hs], by rw [imagePoolDir, imageName, hs],
    by rw [imageDstTar, imageName, hs]⟩

/-- C10: a symlink whose target is a directory is listed among the
subdirectories by the walk but never descended into: the snapshot records it
as a directory node carrying the symlink's own lstat mode with an empty
dirents mapping, and no symlink node is produced for it. -/
theorem symlink_to_directory_recorded_as_empty_dir (h : String → String)
    (m ms : Nat) (t n : String) (pre post : List (String × FS))
    (hn : ∀ q ∈ pre ++ post, q.1 ≠ n) :
    List.lookup n (dirents (snapNode h
      (.dir m (pre ++ (n, .symlink ms t true) :: post)))) =
      some (.dir ms []) := by
  show List.lookup n (snapDirs h (pre ++ (n, FS.symlink ms t true) :: post) ++
    snapFiles h (pre ++ (n, FS.symlink ms t true) :: post)) = some (.dir ms [])
  rw [snapDirs_eq_filter_map, List.filter_append, List.filter_cons]
  simp only [isDirClass, if_true]
  rw [List.map_append, List.map_cons, List.append_assoc, List.cons_append]
  rw [lookup_append_of_none (lookup_eq_none_of_keys_ne fun q hq => by
    obtain ⟨e, he, rfl⟩ := List.mem_map.1 hq
    exact hn e (List.mem_append_left _ (List.mem_filter.1 he).1))]
  simp [List.lookup]
  rfl

/-- Witness for C10 at a concrete directory with a symlink to a directory
between a regular file and a dangling symlink. -/
theorem symlink_to_directory_recorded_as_empty_dir_witness :
    List.lookup "d" (dirents (snapNode (fun s => s)
      (.dir 493 ([("x", .file 420 "q")] ++
        ("d", .symlink 511 "tgt" true) :: [("y", .symlink 420 "z" false)])))) =
      some (.dir 511 []) :=
  symlink_to_directory_recorded_as_empty_dir (fun s => s) 493 511 "tgt" "d"
    [("x", .file 420 "q")] [("y", .symlink 420 "z" false)] (by decide)

end Convert
